import Mathlib

/-
Verification of the fixed-point sine approximation and control loop of the
rocking-stand servo controller (src/stand.c and src/experiments/sin11.c).

Machine integers are embedded as Nat (bit patterns) or Int (signed values),
with explicit reductions modulo 256 and 65536 where the C code truncates.
-/

set_option maxRecDepth 100000

namespace RockingStand

/-- Reinterpret the low 8 bits of a natural number as a signed two-complement
8-bit value (the value of an int8_t holding that bit pattern). -/
def toS8 (b : Nat) : Int :=
  if b % 256 < 128 then ((b % 256 : Nat) : Int) else ((b % 256 : Nat) : Int) - 256

/-- Truncate an integer to its low 8 bits, read unsigned (conversion of a C
int to uint8_t). -/
def toU8 (i : Int) : Nat := (i % 256).toNat

/-- Embedding of sq8 from src/stand.c lines 30-35 (textually identical to
sq8_imul in src/experiments/sin11.c lines 31-36).  The argument is the 8-bit
pattern of the int8_t parameter.
C source: x += 128; x = ((int16_t)x * x) >> 7; return ~x;
The += wraps in int8_t, the product of the signed value with itself is exact
in 16 bits and nonnegative, the shift is division by 128, the assignment
truncates back to int8_t, and the final complement is returned as uint8_t. -/
def sq8 (x : Nat) : Nat :=
  let x1 : Int := toS8 (x + 128)
  let x2 : Int := toS8 (toU8 (x1 * x1 / 128))
  toU8 (-x2 - 1)

/-- sq8_imul of src/experiments/sin11.c is the same function as sq8 of
src/stand.c, character for character. -/
def sq8_imul : Nat → Nat := sq8

/-- Embedding of sin8 from src/stand.c lines 41-48 (same text in sin11.c):
uint8_t ret = sq8(angle << 1); if (angle & 128) ret = ~ret; return ret + 128;
The shift truncates into the int8_t parameter of sq8, the complement is on
uint8_t, and the return converts to int8_t.  Result is the signed value. -/
def sin8 (angle : Nat) : Int :=
  let a := angle % 256
  let ret : Nat := sq8 (a * 2)
  let ret2 : Nat := if 128 ≤ a then 255 - ret else ret
  toS8 (ret2 + 128)

/-- Embedding of sinu8 from src/experiments/sin11.c lines 41-47:
if (angle & 128) return ~sq8(angle << 1); else return sq8(angle << 1);
returned as uint8_t. -/
def sinu8 (angle : Nat) : Nat :=
  let a := angle % 256
  if 128 ≤ a then 255 - sq8 (a * 2) else sq8 (a * 2)

/-- One iteration of the do-while loop of sq8_bit (src/experiments/sin11.c
lines 17-23).  The state is (x, out, cf); w is fixed before the loop.
C body: out = (cf << 7) + (out >> 1);
        if (x & 1) { out += w; cf = (out < w); }
        x >>= 1;
All variables are uint8_t; cf is 0 or 1. -/
def sq8_bitStep (w : Nat) (s : Nat × Nat × Nat) : Nat × Nat × Nat :=
  let x := s.1
  let out := (s.2.1 / 2 + s.2.2 * 128) % 256
  if x % 2 = 1 then
    let out2 := (out + w) % 256
    (x / 2, out2, if out2 < w then 1 else 0)
  else
    (x / 2, out, s.2.2)

/-- Embedding of sq8_bit from src/experiments/sin11.c lines 8-26: w = ~x,
cf = 0, out = 0, eight iterations of the loop body, return out + 128 as
uint8_t. -/
def sq8_bit (x0 : Nat) : Nat :=
  let x := x0 % 256
  let w := 255 - x
  let s := Nat.iterate (sq8_bitStep w) 8 (x, 0, 0)
  (s.2.1 + 128) % 256

/-- The sine of sin11.c with the bit-only square substituted for the
multiply-based one (the substitution the spec describes for multiply-less
targets: the file selects the backend with a single define). -/
def sin8_bitOnly (angle : Nat) : Int :=
  let a := angle % 256
  let ret : Nat := sq8_bit (a * 2)
  let ret2 : Nat := if 128 ≤ a then 255 - ret else ret
  toS8 (ret2 + 128)

/-- The square helper exactly as the words of the spec describe it: take
x + 128 as an UNSIGNED 8-bit value in [0,255], square it with a widening
multiply to 16 bits, shift the 16-bit result right by 7, and complement the
low 8 bits.  Written for comparison against sq8, which is the authority. -/
def sq8_specUnsigned (x : Nat) : Nat :=
  let u := (x + 128) % 256
  255 - (u * u / 128 % 256)

/-- Absolute value of the signed 8-bit number whose bit pattern is b. -/
def sAbs8 (b : Nat) : Nat :=
  if b % 256 < 128 then b % 256 else 256 - b % 256

/-- Exact integer value of the pulse-width expression of loop()
(src/stand.c lines 160-162) before storage into the uint16_t pw:
1500 + ((int16_t)(p1 - 512) << 1) + (((int16_t)sin8(angle >> 8) * p3) >> 6).
For p1 in [0,1023] the cast-and-shift is exactly 2*(p1 - 512); the final
shift of the possibly negative product is an arithmetic shift, i.e. floor
division by 64. -/
def pulseWidthExact (angle p1 p3 : Nat) : Int :=
  1500 + ((p1 : Int) - 512) * 2 + sin8 (angle / 256 % 256) * ((p3 % 256 : Nat) : Int) / 64

/-- The value actually stored in the uint16_t pw: the exact value reduced
modulo 2^16. -/
def pulseWidthU16 (angle p1 p3 : Nat) : Nat :=
  (pulseWidthExact angle p1 p3 % 65536).toNat

/-- Phase-accumulator update of loop() (src/stand.c line 168):
angle += (uint16_t)p2 << 2, on uint16_t. -/
def angleStep (a p2 : Nat) : Nat :=
  (a + p2 * 4 % 65536) % 65536

/-- One iteration of loop() as a pure transition: stand.c has a single
file-scope variable, angle, so the persistent state is one 16-bit value.
The samples p1, p2, p3 are read afresh from the ADC each cycle and pw is
recomputed and emitted; the pair returned is (new angle, emitted pulse). -/
def loopStep (a p1 p2 p3 : Nat) : Nat × Nat :=
  (angleStep a p2, pulseWidthU16 a p1 p3)

/-- Phase after n iterations of loop() from power-on (angle initialized to
0 at file scope), given the three per-cycle sample streams. -/
def runAngle (p1s p2s p3s : Nat → Nat) : Nat → Nat
  | 0 => 0
  | n + 1 => (loopStep (runAngle p1s p2s p3s n) (p1s n) (p2s n) (p3s n)).1

/-- Range of the zero-centered sine: every output lies in [-128, 127]. -/
theorem sin8_bounds : ∀ b : Fin 256, -128 ≤ sin8 b.val ∧ sin8 b.val ≤ 127 := by
  decide

/-- Claim C1: the spec requires sq8_bit and sq8_imul to agree exactly on all
256 inputs, and the derived sines to coincide; the code violates this at
input 0 (and on 230 of the 256 inputs): sq8_bit never clears its carry flag
after the shift consumes it, so a stale carry is re-added on later zero bits
of x.  Both functions carry the same documentation comment, so the bit-only
version is the slip. -/
theorem sq8_bit_deviates_from_sq8_imul :
    sq8_bit 0 = 128 ∧ sq8_imul 0 = 127 ∧ sq8_bit 0 ≠ sq8_imul 0 ∧
    sin8_bitOnly 0 = 0 ∧ sin8 0 = -1 := by
  decide

/-- Claim C2, counterexample: at offset sample p1 = 0, amplitude sample
p3 = 255 and phase 49152 (top byte 192, where the sine reaches -128), the
exact pulse-width value is -34, below 0, and the stored uint16_t wraps to
65502 — the claimed impossibility of wraparound fails. -/
theorem pulseWidth_wraps_at_low_offset :
    pulseWidthExact 49152 0 255 = -34 ∧ pulseWidthU16 49152 0 255 = 65502 := by
  decide

/-- Claim C2, amended: for p1 in [0,1023], p3 in [0,255] and any phase, the
exact pulse-width value lies in [-34, 3028], so it never exceeds 2^16 - 1;
and whenever the offset sample is at least 17 it is also nonnegative, so the
uint16_t computation does not wrap and pw holds the exact value. -/
theorem pulseWidth_no_overflow (angle p1 p3 : Nat)
    (h1 : p1 ≤ 1023) (h3 : p3 ≤ 255) :
    (-34 ≤ pulseWidthExact angle p1 p3 ∧ pulseWidthExact angle p1 p3 ≤ 3028) ∧
    (17 ≤ p1 → 0 ≤ pulseWidthExact angle p1 p3 ∧
      (pulseWidthU16 angle p1 p3 : Int) = pulseWidthExact angle p1 p3) := by
  have hb : angle / 256 % 256 < 256 := Nat.mod_lt _ (by norm_num)
  obtain ⟨hs1, hs2⟩ := sin8_bounds ⟨angle / 256 % 256, hb⟩
  set s : Int := sin8 (angle / 256 % 256) with hsdef
  have hp3m : p3 % 256 = p3 := Nat.mod_eq_of_lt (lt_of_le_of_lt h3 (by norm_num))
  have hp3lo : (0 : Int) ≤ (p3 : Int) := Int.natCast_nonneg p3
  have hp3hi : (p3 : Int) ≤ 255 := by exact_mod_cast h3
  have hmul_lo : (-32640 : Int) ≤ s * (p3 : Int) := by nlinarith
  have hmul_hi : s * (p3 : Int) ≤ 32385 := by nlinarith
  have hdiv_lo : (-510 : Int) ≤ s * (p3 : Int) / 64 := by
    have := Int.ediv_le_ediv (by norm_num : (0:Int) < 64) hmul_lo
    simpa using this
  have hdiv_hi : s * (p3 : Int) / 64 ≤ 506 := by
    have := Int.ediv_le_ediv (by norm_num : (0:Int) < 64) hmul_hi
    simpa using this
  have hp1lo : (0 : Int) ≤ (p1 : Int) := Int.natCast_nonneg p1
  have hp1hi : (p1 : Int) ≤ 1023 := by exact_mod_cast h1
  have he : pulseWidthExact angle p1 p3 =
      1500 + ((p1 : Int) - 512) * 2 + s * (p3 : Int) / 64 := by
    unfold pulseWidthExact
    rw [hp3m]
  refine ⟨⟨by rw [he]; linarith, by rw [he]; linarith⟩, fun h17 => ?_⟩
  have hp1lo17 : (17 : Int) ≤ (p1 : Int) := by exact_mod_cast h17
  have hpos : 0 ≤ pulseWidthExact angle p1 p3 := by rw [he]; linarith
  have hlt : pulseWidthExact angle p1 p3 < 65536 := by rw [he]; linarith
  refine ⟨hpos, ?_⟩
  unfold pulseWidthU16
  rw [Int.emod_eq_of_lt hpos hlt, Int.toNat_of_nonneg hpos]

/-- Witness for pulseWidth_no_overflow at angle 0, p1 = 512, p3 = 0. -/
theorem pulseWidth_no_overflow_witness :
    0 ≤ pulseWidthExact 0 512 0 ∧
      (pulseWidthU16 0 512 0 : Int) = pulseWidthExact 0 512 0 :=
  (pulseWidth_no_overflow 0 512 0 (by decide) (by decide)).2 (by decide)

/-- Claim C3, counterexample: the zero-centered sine at angle 0 is -1, not
the claimed 0 (the complement used for the second half-wave shifts the whole
curve down by one at the zero crossings of the first sample). -/
theorem sin8_zero_ne_zero : sin8 0 ≠ 0 := by decide

/-- Claim C3, amended: the quarter-period landmarks of the zero-centered
sine are sin8 0 = -1, sin8 64 = 127, sin8 128 = 0 and sin8 192 = -128. -/
theorem sin8_landmarks :
    sin8 0 = -1 ∧ sin8 64 = 127 ∧ sin8 128 = 0 ∧ sin8 192 = -128 := by
  decide

/-- Claim C4, counterexample: at input 1 the code returns 129, while the
procedure described by the spec (square the UNSIGNED value of x + 128)
returns 125 — the code squares the signed reinterpretation instead. -/
theorem sq8_ne_specUnsigned :
    sq8 1 = 129 ∧ sq8_specUnsigned 1 = 125 ∧ sq8 1 ≠ sq8_specUnsigned 1 := by
  decide

/-- Claim C4, amended: sq8 equals the bitwise complement of the low 8 bits
of (s * s) >> 7, where s is x + 128 reinterpreted as a SIGNED two-complement
8-bit value; equivalently, of (128 - abs x) squared and shifted right 7. -/
theorem sq8_signedSquare :
    ∀ b : Fin 256, sq8 b.val = 255 - (128 - sAbs8 b.val) ^ 2 / 128 := by
  decide

/-- Claim C5: with the offset sample at its midpoint 512 and the amplitude
sample at 0, the pulse width is exactly the center value 1500 for every
phase. -/
theorem pulseWidth_center (angle : Nat) :
    pulseWidthExact angle 512 0 = 1500 ∧ pulseWidthU16 angle 512 0 = 1500 := by
  have h : pulseWidthExact angle 512 0 = 1500 := by
    unfold pulseWidthExact
    norm_num
  refine ⟨h, ?_⟩
  unfold pulseWidthU16
  rw [h]
  decide

/-- Helper for C6: with midpoint offset and maximum amplitude, the pulse
width stays in [990, 2006] for each of the 256 sine samples. -/
theorem pulseWidth_byte_bounds :
    ∀ b : Fin 256, 990 ≤ 1500 + sin8 b.val * 255 / 64 ∧
      1500 + sin8 b.val * 255 / 64 ≤ 2006 := by
  decide

/-- Claim C6: with p1 = 512 and p3 = 255, for every phase the computed
pulse width lies in the safe range [990, 2006] microseconds and the
uint16_t computation does not wrap: pw holds the exact value. -/
theorem pulseWidth_safe_range_max_amplitude (angle : Nat) :
    990 ≤ pulseWidthExact angle 512 255 ∧ pulseWidthExact angle 512 255 ≤ 2006 ∧
      (pulseWidthU16 angle 512 255 : Int) = pulseWidthExact angle 512 255 := by
  have hb : angle / 256 % 256 < 256 := Nat.mod_lt _ (by norm_num)
  have he : pulseWidthExact angle 512 255 =
      1500 + sin8 (angle / 256 % 256) * 255 / 64 := by
    unfold pulseWidthExact
    norm_num
  obtain ⟨h1, h2⟩ := pulseWidth_byte_bounds ⟨angle / 256 % 256, hb⟩
  have hlo : 990 ≤ pulseWidthExact angle 512 255 := by rw [he]; exact h1
  have hhi : pulseWidthExact angle 512 255 ≤ 2006 := by rw [he]; exact h2
  have hpos : 0 ≤ pulseWidthExact angle 512 255 := by linarith
  have hlt : pulseWidthExact angle 512 255 < 65536 := by linarith
  refine ⟨hlo, hhi, ?_⟩
  unfold pulseWidthU16
  rw [Int.emod_eq_of_lt hpos hlt, Int.toNat_of_nonneg hpos]

/-- Claim C7: for every 8-bit angle, the 128-centered sine equals the
zero-centered sine plus 128, modulo 256. -/
theorem sinu8_eq_sin8_plus_128 :
    ∀ a : Fin 256, ((sinu8 a.val : Nat) : Int) = (sin8 a.val + 128) % 256 := by
  decide

/-- Claim C8: advancing the 16-bit phase accumulator n times by the fixed
increment p2 << 2 (mod 2^16) lands on the same value as one addition of the
increment times n, mod 2^16. -/
theorem angle_accumulation (a p2 n : Nat) (h : a < 65536) :
    (fun s => angleStep s p2)^[n] a = (a + p2 * 4 % 65536 * n) % 65536 := by
  induction n with
  | zero => simpa using (Nat.mod_eq_of_lt h).symm
  | succ n ih =>
      rw [Function.iterate_succ_apply', ih]
      unfold angleStep
      rw [Nat.mod_add_mod]
      have harith : a + p2 * 4 % 65536 * n + p2 * 4 % 65536 =
          a + p2 * 4 % 65536 * (n + 1) := by ring
      rw [harith]

/-- Witness for angle_accumulation: two steps of increment 12 from phase 5. -/
theorem angle_accumulation_witness :
    (fun s => angleStep s 3)^[2] 5 = (5 + 3 * 4 % 65536 * 2) % 65536 :=
  angle_accumulation 5 3 2 (by decide)

/-- Claim C9: the phase accumulator is the only state carried across loop()
iterations and starts at 0; the trajectory of angle depends only on the
stream of speed samples — replacing the offset and amplitude streams leaves
the phase after any number of iterations unchanged, since p1, p3 and pw are
recomputed from scratch each cycle and only feed the emitted pulse. -/
theorem angle_sole_state (p1s p2s p3s q1s q3s : Nat → Nat) (n : Nat) :
    runAngle p1s p2s p3s n = runAngle q1s p2s q3s n ∧
      runAngle p1s p2s p3s 0 = 0 := by
  refine ⟨?_, rfl⟩
  induction n with
  | zero => rfl
  | succ n ih => simp [runAngle, loopStep, ih]

/-- Claim C10: the second half-wave is the bitwise complement of the first,
not its exact negation: for every 8-bit angle a,
sin8 ((a + 128) mod 256) = -1 - sin8 a as signed values. -/
theorem sin8_half_period_complement :
    ∀ a : Fin 256, sin8 ((a.val + 128) % 256) = -1 - sin8 a.val := by
  decide

end RockingStand
